import Mathlib

/-!
Verification development for the `wit-parser` / `wit-encoder` core of the
wasm-tools repository. Rust definitions from
`crates/wit-parser/src/lib.rs` and `crates/wit-encoder/src/resource.rs`
are shallowly embedded as Lean functions; machine integers are modelled as
`Nat` (no arithmetic here overflows), panics and out-of-fuel recursion are
modelled with `Option`, and mutation is modelled by returning the updated
value.
-/

namespace WitParser

/-- Model of `semver::Version` (external crate): major/minor/patch numbers
plus the raw pre-release and build-metadata text (empty string = absent).
Structural equality of this record matches the crate's `Eq`, which compares
all five components. -/
structure Version where
  major : Nat
  minor : Nat
  patch : Nat
  pre : String
  build : String
deriving DecidableEq, Repr

/-- Embeds `PackageName` (lib.rs:168): namespace, kebab-name and optional
version of a package. -/
structure PackageName where
  namespace_ : String
  name : String
  version : Option Version
deriving DecidableEq, Repr

/-- Embeds `PackageName::version_compat_track` (lib.rs:207): clear the build
metadata, then return the version as-is if it is a pre-release, else zero
out the components below the first nonzero one. -/
def PackageName.version_compat_track (version : Version) : Version :=
  let v := { version with build := "" }
  if v.pre ≠ "" then v
  else if v.major ≠ 0 then { v with minor := 0, patch := 0 }
  else if v.minor ≠ 0 then { v with patch := 0 }
  else v

/-- Embeds `Int` (lib.rs:712), the discriminant width of a variant/enum. -/
inductive Int where
  | U8
  | U16
  | U32
  | U64
deriving DecidableEq, Repr

/-- Embeds `discriminant_type` (lib.rs:826). Rust's
`num_cases.checked_sub(1)` is `none` exactly on `0`; the `panic!` on more
than `u32::MAX + 1` cases is modelled as `none`. -/
def discriminant_type (num_cases : Nat) : Option Int :=
  match num_cases with
  | 0 => some Int.U8
  | Nat.succ n =>
    if n ≤ 255 then some Int.U8
    else if n ≤ 65535 then some Int.U16
    else if n ≤ 4294967295 then some Int.U32
    else none

/-- Modelled from the spec: `sizealign::align_to` is used by `Flags::repr`
(lib.rs:762) but `sizealign.rs` is not among the given sources. The spec
(§4.2) requires the 32-bit representation to span `ceil(flag_count/32)`
words, which fixes `align_to n 32 / 32 = ceil(n/32)`; `align_to` rounds its
first argument up to a multiple of the second. -/
def align_to (val align : Nat) : Nat :=
  (val + align - 1) / align * align

/-- Embeds `Docs` (lib.rs:845). -/
structure Docs where
  contents : Option String
deriving DecidableEq, Repr

/-- Embeds `Flag` (lib.rs:743). -/
structure Flag where
  name : String
  docs : Docs
deriving DecidableEq, Repr

/-- Embeds `Flags` (lib.rs:737). -/
structure Flags where
  flags : List Flag
deriving DecidableEq, Repr

/-- Embeds `FlagsRepr` (lib.rs:750); `U32 n` spans `n` 32-bit words. -/
inductive FlagsRepr where
  | U8
  | U16
  | U32 (words : Nat)
deriving DecidableEq, Repr

/-- Embeds `Flags::repr` (lib.rs:757). -/
def Flags.repr (f : Flags) : FlagsRepr :=
  match f.flags.length with
  | 0 => FlagsRepr.U32 0
  | n =>
    if n ≤ 8 then FlagsRepr.U8
    else if n ≤ 16 then FlagsRepr.U16
    else FlagsRepr.U32 (align_to n 32 / 32)

/-- Embeds `Mangling` (lib.rs:987). -/
inductive Mangling where
  | Standard32
  | Legacy
deriving DecidableEq, Repr

/-- Embeds `LiftLowerAbi` (lib.rs:1018). -/
inductive LiftLowerAbi where
  | Sync
  | AsyncCallback
  | AsyncStackful
deriving DecidableEq, Repr

/-- Embeds `ManglingAndAbi` (lib.rs:1067): `Standard32` pairs only with the
synchronous ABI, `Legacy` carries a `LiftLowerAbi`. -/
inductive ManglingAndAbi where
  | Standard32
  | Legacy (abi : LiftLowerAbi)
deriving DecidableEq, Repr

/-- Embeds `ManglingAndAbi::sync` (lib.rs:1096). -/
def ManglingAndAbi.sync (m : ManglingAndAbi) : ManglingAndAbi :=
  match m with
  | ManglingAndAbi.Standard32 => m
  | ManglingAndAbi.Legacy LiftLowerAbi.Sync => m
  | ManglingAndAbi.Legacy LiftLowerAbi.AsyncCallback =>
    ManglingAndAbi.Legacy LiftLowerAbi.Sync
  | ManglingAndAbi.Legacy LiftLowerAbi.AsyncStackful =>
    ManglingAndAbi.Legacy LiftLowerAbi.Sync

/-- Embeds `ManglingAndAbi::is_async` (lib.rs:1105). -/
def ManglingAndAbi.is_async (m : ManglingAndAbi) : Bool :=
  match m with
  | ManglingAndAbi.Standard32 => false
  | ManglingAndAbi.Legacy LiftLowerAbi.Sync => false
  | ManglingAndAbi.Legacy LiftLowerAbi.AsyncCallback => true
  | ManglingAndAbi.Legacy LiftLowerAbi.AsyncStackful => true

/-- Embeds `KebabDedupe::from` (lib.rs:464): strip one leading `[async]`
marker (7 characters) if present. Equality of the resulting strings is the
`KebabDedupe` equality used by `WorldKey`. The check works on the
character sequence, which agrees with Rust's byte-level `strip_prefix`
since the marker is ASCII. -/
def kebabDedupe (s : String) : String :=
  if "[async]".data.isPrefixOf s.data then { data := s.data.drop 7 } else s

/-- Embeds `WorldKey` (lib.rs:446): either a kebab-name or an interface
handle (arena index). -/
inductive WorldKey where
  | Name (s : String)
  | Interface (i : Nat)
deriving DecidableEq, Repr

/-- Embeds `PartialEq for WorldKey` (lib.rs:495): names compare through
`KebabDedupe`, interfaces by handle, and the two variants never compare
equal to each other. -/
def WorldKey.eq (a b : WorldKey) : Bool :=
  match a, b with
  | WorldKey.Name a, WorldKey.Name b => kebabDedupe a == kebabDedupe b
  | WorldKey.Name _, _ => false
  | WorldKey.Interface a, WorldKey.Interface b => a == b
  | WorldKey.Interface _, _ => false

/-- Embeds `Hash for WorldKey` (lib.rs:480): the data fed to the hasher is
a discriminant tag (0 for `Name`, 1 for `Interface`) followed by the
`KebabDedupe`-normalized name, resp. the interface handle. Two keys hash
equal (for every hasher) iff these inputs coincide. -/
def WorldKey.hashInput (k : WorldKey) : Nat × (String ⊕ Nat) :=
  match k with
  | WorldKey.Name s => (0, Sum.inl (kebabDedupe s))
  | WorldKey.Interface i => (1, Sum.inr i)

/-- Embeds `Stability` (lib.rs:1254): `Unknown`, `@unstable(feature = ..)`
with an optional deprecation version, or `@since(version = ..)` with an
optional deprecation version. The declaration order of the variants is the
order used by the derived `Ord`. -/
inductive Stability where
  | Unknown
  | Unstable (feature : String) (deprecated : Option Version)
  | Stable (since : Version) (deprecated : Option Version)
deriving DecidableEq, Repr

/-- Sort key for the pre-release component in the semver crate's `Ord`:
a version without a pre-release is greater than one with a pre-release. -/
def preKey (s : String) : Lex (Nat × String) :=
  toLex (if s = "" then (1, "") else (0, s))

/-- Model of the semver crate's `Ord for Version` as a lexicographic sort
key: major, then minor, then patch, then pre-release (absent ranks
highest), then build metadata. The crate's numeric-identifier refinements
inside pre/build text are external to the given sources and are modelled
by plain string order. -/
def Version.key (v : Version) :
    Lex (Nat × Lex (Nat × Lex (Nat × Lex (Lex (Nat × String) × String)))) :=
  toLex (v.major, toLex (v.minor, toLex (v.patch, toLex (preKey v.pre, v.build))))

/-- `Version` strict order: comparison of sort keys. -/
def Version.lt (a b : Version) : Prop :=
  a.key < b.key

/-- Model of Rust's derived `Ord for Option<Version>`: `None` sorts before
`Some`, and two `Some`s compare by the inner versions. -/
def optVersionLt (a b : Option Version) : Prop :=
  match a, b with
  | none, none => False
  | none, some _ => True
  | some _, none => False
  | some x, some y => Version.lt x y

/-- Embeds the derived `Ord for Stability` (lib.rs:1251, strict part):
variants compare by declaration order `Unknown < Unstable < Stable`; two
values of the same variant compare lexicographically by their fields
(`feature` then `deprecated` for `Unstable`; `since` then `deprecated` for
`Stable`). -/
def Stability.lt (a b : Stability) : Prop :=
  match a, b with
  | Stability.Unknown, Stability.Unknown => False
  | Stability.Unknown, Stability.Unstable _ _ => True
  | Stability.Unknown, Stability.Stable _ _ => True
  | Stability.Unstable _ _, Stability.Unknown => False
  | Stability.Unstable f d, Stability.Unstable f' d' =>
    f < f' ∨ (f = f' ∧ optVersionLt d d')
  | Stability.Unstable _ _, Stability.Stable _ _ => True
  | Stability.Stable _ _, Stability.Unknown => False
  | Stability.Stable _ _, Stability.Unstable _ _ => False
  | Stability.Stable s d, Stability.Stable s' d' =>
    Version.lt s s' ∨ (s = s' ∧ optVersionLt d d')

/-- Arena handle for `TypeDef` (`TypeId`, lib.rs:45): an index into the
`types` arena. -/
abbrev TypeId := Nat

/-- Embeds `Type` (lib.rs:693), named `Ty` because `Type` is reserved in
Lean: the primitive types plus a reference to a type definition. -/
inductive Ty where
  | Bool
  | U8
  | U16
  | U32
  | U64
  | S8
  | S16
  | S32
  | S64
  | F32
  | F64
  | Char
  | String
  | ErrorContext
  | Id (id : TypeId)
deriving DecidableEq, Repr

/-- Embeds `Handle` (lib.rs:685). -/
inductive Handle where
  | Own (id : TypeId)
  | Borrow (id : TypeId)
deriving DecidableEq, Repr

/-- Embeds `Field` (lib.rs:727). -/
structure Field where
  name : String
  ty : Ty
  docs : Docs
deriving DecidableEq, Repr

/-- Embeds `Record` (lib.rs:721). -/
structure Record where
  fields : List Field
deriving DecidableEq, Repr

/-- Embeds `Tuple` (lib.rs:779). -/
structure Tuple where
  types : List Ty
deriving DecidableEq, Repr

/-- Embeds `Case` (lib.rs:791). -/
structure Case where
  name : String
  ty : Option Ty
  docs : Docs
deriving DecidableEq, Repr

/-- Embeds `Variant` (lib.rs:785). -/
structure Variant where
  cases : List Case
deriving DecidableEq, Repr

/-- Embeds `EnumCase` (lib.rs:813). -/
structure EnumCase where
  name : String
  docs : Docs
deriving DecidableEq, Repr

/-- Embeds `Enum` (lib.rs:807). -/
structure Enum where
  cases : List EnumCase
deriving DecidableEq, Repr

/-- Embeds `Result_` (lib.rs:838). -/
structure Result_ where
  ok : Option Ty
  err : Option Ty
deriving DecidableEq, Repr

/-- Embeds `TypeOwner` (lib.rs:669); world/interface handles are arena
indices. -/
inductive TypeOwner where
  | World (id : Nat)
  | Interface (id : Nat)
  | None
deriving DecidableEq, Repr

/-- Embeds `TypeDefKind` (lib.rs:617). -/
inductive TypeDefKind where
  | Record (r : WitParser.Record)
  | Resource
  | Handle (h : WitParser.Handle)
  | Flags (f : WitParser.Flags)
  | Tuple (t : WitParser.Tuple)
  | Variant (v : WitParser.Variant)
  | Enum (e : WitParser.Enum)
  | Option (t : Ty)
  | Result (r : Result_)
  | List (t : Ty)
  | FixedSizeList (t : Ty) (n : Nat)
  | Future (t : Option Ty)
  | Stream (t : Option Ty)
  | Type (t : Ty)
  | Unknown
deriving DecidableEq, Repr

/-- Embeds `TypeDef` (lib.rs:600). -/
structure TypeDef where
  name : Option String
  kind : TypeDefKind
  owner : TypeOwner
  docs : Docs
  stability : Stability
deriving DecidableEq, Repr

/-- Modelled from the spec: `Resolve` lives in `resolve.rs`, which is not
among the given sources. Per §3/§4.1 it owns append-only arenas; only the
`types` arena is needed here, modelled as a list indexed by `TypeId`. -/
structure Resolve where
  types : List TypeDef
deriving DecidableEq, Repr

/-- Sequential traversal of a list of types, threading the accumulated
results through `step` and short-circuiting on failure; models the `for`
loops inside `find_futures_and_streams`. -/
def stepTypes (step : Ty → List TypeId → Option (List TypeId))
    (ts : List Ty) (results : List TypeId) : Option (List TypeId) :=
  ts.foldl
    (fun o t =>
      match o with
      | none => none
      | some results => step t results)
    (some results)

/-- Embeds `find_futures_and_streams` (lib.rs:1187). Differences forced by
the embedding: the Rust recursion is unbounded and is given fuel here,
spent once per nesting level (`none` = fuel ran out, which cannot happen
for any sufficient fuel on a topologically ordered arena); indexing
`resolve.types[id]` out of bounds and the `unreachable!()` on
`TypeDefKind::Unknown` (both panics) are also `none`. The per-kind loops
over field/tuple/case/result payload types are expressed by folding over
the list of payload types, in source order. -/
def findFS (resolve : Resolve) : Nat → Ty → List TypeId → Option (List TypeId)
  | 0, _, _ => none
  | Nat.succ fuel, ty, results =>
    match ty with
    | Ty.Id id =>
      match resolve.types[id]? with
      | none => none
      | some td =>
        match td.kind with
        | TypeDefKind.Resource => some results
        | TypeDefKind.Handle _ => some results
        | TypeDefKind.Flags _ => some results
        | TypeDefKind.Enum _ => some results
        | TypeDefKind.Record r =>
          stepTypes (fun t r => findFS resolve fuel t r) (r.fields.map Field.ty) results
        | TypeDefKind.Tuple t =>
          stepTypes (fun t r => findFS resolve fuel t r) t.types results
        | TypeDefKind.Variant v =>
          stepTypes (fun t r => findFS resolve fuel t r) (v.cases.filterMap Case.ty) results
        | TypeDefKind.Option t => findFS resolve fuel t results
        | TypeDefKind.List t => findFS resolve fuel t results
        | TypeDefKind.FixedSizeList t _ => findFS resolve fuel t results
        | TypeDefKind.Type t => findFS resolve fuel t results
        | TypeDefKind.Result r =>
          stepTypes (fun t r => findFS resolve fuel t r) (r.ok.toList ++ r.err.toList) results
        | TypeDefKind.Future t =>
          match stepTypes (fun t r => findFS resolve fuel t r) t.toList results with
          | none => none
          | some results => some (results ++ [id])
        | TypeDefKind.Stream t =>
          match stepTypes (fun t r => findFS resolve fuel t r) t.toList results with
          | none => none
          | some results => some (results ++ [id])
        | TypeDefKind.Unknown => none
    | _ => some results

/-- The kinds that `find_futures_and_streams` collects: a future or a
stream. -/
def isFutureOrStream (k : TypeDefKind) : Prop :=
  (∃ t, k = TypeDefKind.Future t) ∨ (∃ t, k = TypeDefKind.Stream t)

/-- Embeds `FunctionKind` (lib.rs:877); resource-attached kinds carry the
owning resource's type handle. -/
inductive FunctionKind where
  | Freestanding
  | AsyncFreestanding
  | Method (id : TypeId)
  | AsyncMethod (id : TypeId)
  | Static (id : TypeId)
  | AsyncStatic (id : TypeId)
  | Constructor (id : TypeId)
deriving DecidableEq, Repr

/-- Embeds `Function` (lib.rs:857). -/
structure Function where
  name : String
  kind : FunctionKind
  params : List (String × Ty)
  result : Option Ty
  docs : Docs
  stability : Stability
deriving DecidableEq, Repr

/-- Embeds `Mangling` selection inside `Function::core_export_name`
(lib.rs:1144); `Cow` strings are plain strings here. -/
def Function.core_export_name (f : Function) (interface : Option String)
    (mangling : Mangling) : String :=
  match interface with
  | some interface =>
    match mangling with
    | Mangling.Standard32 => "cm32p2|" ++ interface ++ "|" ++ f.name
    | Mangling.Legacy => interface ++ "#" ++ f.name
  | none =>
    match mangling with
    | Mangling.Standard32 => "cm32p2||" ++ f.name
    | Mangling.Legacy => f.name

/-- Embeds `Function::find_futures_and_streams` (lib.rs:1175): traverse
each parameter type in order, then the result type, accumulating
future/stream ids. -/
def Function.find_futures_and_streams (f : Function) (resolve : Resolve)
    (fuel : Nat) : Option (List TypeId) :=
  match stepTypes (fun t r => findFS resolve fuel t r) (f.params.map Prod.snd) [] with
  | none => none
  | some results =>
    match f.result with
    | some ty => findFS resolve fuel ty results
    | none => some results

/-- The arena of the spec's traversal example (§8): type 0 is
`future<u32>`, type 1 is `future<future<u32>>`, type 2 is `stream<u8>`
(mirrors the `test_find_futures_and_streams` setup, lib.rs:1331). -/
def exampleResolve : Resolve :=
  { types :=
      [{ name := none
         kind := TypeDefKind.Future (some Ty.U32)
         owner := TypeOwner.None
         docs := { contents := none }
         stability := Stability.Unknown },
       { name := none
         kind := TypeDefKind.Future (some (Ty.Id 0))
         owner := TypeOwner.None
         docs := { contents := none }
         stability := Stability.Unknown },
       { name := none
         kind := TypeDefKind.Stream (some Ty.U8)
         owner := TypeOwner.None
         docs := { contents := none }
         stability := Stability.Unknown }] }

/-- The function of the spec's traversal example (§8):
`foo: func(p1: future<future<u32>>, p2: u32) -> stream<u8>`. -/
def exampleFunction : Function :=
  { name := "foo"
    kind := FunctionKind.Freestanding
    params := [("p1", Ty.Id 1), ("p2", Ty.U32)]
    result := some (Ty.Id 2)
    docs := { contents := none }
    stability := Stability.Unknown }

/-- Concatenation, in order, of the collections produced for each type of
a list; `none` as soon as one collection fails. Used by the
specification-level restatement below. -/
def collectEach (g : Ty → Option (List TypeId)) : List Ty → Option (List TypeId)
  | [] => some []
  | t :: ts =>
    match g t, collectEach g ts with
    | some a, some b => some (a ++ b)
    | _, _ => none

/-- Specification-level restatement, following the spec's words (§8 and
the traversal description on `find_futures_and_streams`), to be compared
with the source embedding `findFS`: the list of future and stream type ids
occurring in a type, collected depth-first, with a nested future/stream
listed before the future/stream containing it (for a future/stream the
payload's collection precedes the id itself). It uses the same fuel
discipline and the same failure conditions (missing arena entry, `Unknown`
kind, fuel exhaustion) as the source embedding. -/
def specFuturesAndStreams (resolve : Resolve) : Nat → Ty → Option (List TypeId)
  | 0, _ => none
  | Nat.succ fuel, ty =>
    match ty with
    | Ty.Id id =>
      match resolve.types[id]? with
      | none => none
      | some td =>
        match td.kind with
        | TypeDefKind.Resource => some []
        | TypeDefKind.Handle _ => some []
        | TypeDefKind.Flags _ => some []
        | TypeDefKind.Enum _ => some []
        | TypeDefKind.Record r =>
          collectEach (fun t => specFuturesAndStreams resolve fuel t) (r.fields.map Field.ty)
        | TypeDefKind.Tuple t =>
          collectEach (fun t => specFuturesAndStreams resolve fuel t) t.types
        | TypeDefKind.Variant v =>
          collectEach (fun t => specFuturesAndStreams resolve fuel t) (v.cases.filterMap Case.ty)
        | TypeDefKind.Option t => specFuturesAndStreams resolve fuel t
        | TypeDefKind.List t => specFuturesAndStreams resolve fuel t
        | TypeDefKind.FixedSizeList t _ => specFuturesAndStreams resolve fuel t
        | TypeDefKind.Type t => specFuturesAndStreams resolve fuel t
        | TypeDefKind.Result r =>
          collectEach (fun t => specFuturesAndStreams resolve fuel t)
            (r.ok.toList ++ r.err.toList)
        | TypeDefKind.Future t =>
          (collectEach (fun t => specFuturesAndStreams resolve fuel t) t.toList).map
            (fun e => e ++ [id])
        | TypeDefKind.Stream t =>
          (collectEach (fun t => specFuturesAndStreams resolve fuel t) t.toList).map
            (fun e => e ++ [id])
        | TypeDefKind.Unknown => none
    | _ => some []

/-- Specification-level restatement of the whole-signature traversal,
following the spec's words: the collection for each parameter type in
order, followed by the collection for the result type (empty when there is
no result type). -/
def specSignatureFuturesAndStreams (resolve : Resolve) (fuel : Nat) (f : Function) :
    Option (List TypeId) :=
  match collectEach (fun t => specFuturesAndStreams resolve fuel t) (f.params.map Prod.snd),
      (match f.result with
       | some ty => specFuturesAndStreams resolve fuel ty
       | none => some []) with
  | some ps, some rs => some (ps ++ rs)
  | _, _ => none

end WitParser

namespace WitEncoder

/-- Model of wit-encoder's `Ident` (external to the given sources): a
wrapped identifier string; only value identity matters for the claims. -/
structure Ident where
  str : String
deriving DecidableEq, Repr

/-- Model of wit-encoder's `Docs` (external to the given sources). -/
structure Docs where
  contents : String
deriving DecidableEq, Repr

/-- Model of wit-encoder's `Type` (external to the given sources), named
`Ty` because `Type` is reserved in Lean; the claims depend only on value
identity, modelled by a tag. -/
structure Ty where
  tag : Nat
deriving DecidableEq, Repr

/-- Model of wit-encoder's `Params` (external to the given sources): the
named, typed parameter list of a function. -/
structure Params where
  items : List (Ident × Ty)
deriving DecidableEq, Repr

/-- Embeds `Params::empty` behaviour used by the `ResourceFunc`
constructors (resource.rs:50 etc.). -/
def Params.empty : Params := { items := [] }

/-- Embeds `ResourceFuncKind` (resource.rs:40): methods and statics carry
a name, an async flag and an optional result type; constructors carry
nothing. -/
inductive ResourceFuncKind where
  | Method (name : Ident) (async : Bool) (result : Option Ty)
  | Static (name : Ident) (async : Bool) (result : Option Ty)
  | Constructor
deriving DecidableEq, Repr

/-- Embeds `ResourceFunc` (resource.rs:31). -/
structure ResourceFunc where
  kind : ResourceFuncKind
  params : Params
  docs : Option Docs
deriving DecidableEq, Repr

/-- Embeds `ResourceFunc::method` (resource.rs:47). -/
def ResourceFunc.method (name : Ident) (async : Bool) : ResourceFunc :=
  { kind := ResourceFuncKind.Method name async none
    params := Params.empty
    docs := none }

/-- Embeds `ResourceFunc::static_` (resource.rs:55). -/
def ResourceFunc.static_ (name : Ident) (async : Bool) : ResourceFunc :=
  { kind := ResourceFuncKind.Static name async none
    params := Params.empty
    docs := none }

/-- Embeds `ResourceFunc::constructor` (resource.rs:63). -/
def ResourceFunc.constructor : ResourceFunc :=
  { kind := ResourceFuncKind.Constructor
    params := Params.empty
    docs := none }

/-- Embeds `ResourceFunc::set_name` (resource.rs:71): replace the name of
a method or static; the `panic!("constructors cannot have a name")` is
modelled as `none`. -/
def ResourceFunc.set_name (f : ResourceFunc) (name : Ident) : Option ResourceFunc :=
  match f.kind with
  | ResourceFuncKind.Method _ a r =>
    some { f with kind := ResourceFuncKind.Method name a r }
  | ResourceFuncKind.Static _ a r =>
    some { f with kind := ResourceFuncKind.Static name a r }
  | ResourceFuncKind.Constructor => none

/-- Embeds `ResourceFunc::result` (resource.rs:103): `some` of the stored
result slot for methods and statics, `none` for constructors (the same
discrimination `result_mut` performs on the mutable side). -/
def ResourceFunc.result (f : ResourceFunc) : Option (Option Ty) :=
  match f.kind with
  | ResourceFuncKind.Method _ _ result => some result
  | ResourceFuncKind.Static _ _ result => some result
  | ResourceFuncKind.Constructor => none

/-- Embeds `ResourceFunc::set_result` (resource.rs:99), which writes
through `result_mut()`: store the new result for methods and statics; the
`expect("constructors cannot have results")` panic on constructors is
modelled as `none`. -/
def ResourceFunc.set_result (f : ResourceFunc) (result : Option Ty) :
    Option ResourceFunc :=
  match f.kind with
  | ResourceFuncKind.Method n a _ =>
    some { f with kind := ResourceFuncKind.Method n a result }
  | ResourceFuncKind.Static n a _ =>
    some { f with kind := ResourceFuncKind.Static n a result }
  | ResourceFuncKind.Constructor => none

/-- The name stored in a `ResourceFuncKind`, when present; used to state
that `set_result` leaves the name unchanged. -/
def ResourceFuncKind.name? (k : ResourceFuncKind) : Option Ident :=
  match k with
  | ResourceFuncKind.Method n _ _ => some n
  | ResourceFuncKind.Static n _ _ => some n
  | ResourceFuncKind.Constructor => none

end WitEncoder

namespace WitParser

/-- C1: two `Name` world keys are equal (and feed identical data to the
hasher) iff the names agree after stripping one leading `[async]` marker
from each; `Name("foo")` equals `Name("[async]foo")` but not `Name("bar")`;
a `Name` key never equals (or hashes like) an `Interface` key; two
`Interface` keys are equal iff their handles are equal. -/
theorem worldKey_dedupe_spec :
    (∀ a b : String,
      (WorldKey.eq (WorldKey.Name a) (WorldKey.Name b) = true ↔
        kebabDedupe a = kebabDedupe b) ∧
      ((WorldKey.Name a).hashInput = (WorldKey.Name b).hashInput ↔
        kebabDedupe a = kebabDedupe b)) ∧
    WorldKey.eq (WorldKey.Name "foo") (WorldKey.Name "[async]foo") = true ∧
    WorldKey.eq (WorldKey.Name "foo") (WorldKey.Name "bar") = false ∧
    (∀ (a : String) (i : Nat),
      WorldKey.eq (WorldKey.Name a) (WorldKey.Interface i) = false ∧
      WorldKey.eq (WorldKey.Interface i) (WorldKey.Name a) = false ∧
      (WorldKey.Name a).hashInput ≠ (WorldKey.Interface i).hashInput) ∧
    (∀ i j : Nat,
      (WorldKey.eq (WorldKey.Interface i) (WorldKey.Interface j) = true ↔ i = j) ∧
      ((WorldKey.Interface i).hashInput = (WorldKey.Interface j).hashInput ↔ i = j)) := by
  refine ⟨?_, by decide, by decide, ?_, ?_⟩
  · intro a b
    constructor
    · simp [WorldKey.eq]
    · simp [WorldKey.hashInput]
  · intro a i
    refine ⟨rfl, rfl, ?_⟩
    simp [WorldKey.hashInput]
  · intro i j
    constructor
    · simp [WorldKey.eq]
    · simp [WorldKey.hashInput]

/-- C1 witness: the name/interface hash separation evaluated at concrete
keys. -/
theorem worldKey_dedupe_spec_witness :
    (WorldKey.Name "foo").hashInput ≠ (WorldKey.Interface 0).hashInput :=
  (worldKey_dedupe_spec.2.2.2.1 "foo" 0).2.2

/-- C2: `discriminant_type` returns the 8-bit width for at most 256 cases
(including 0 and 1), the 16-bit width up to 65536, the 32-bit width up to
2^32 = 4294967296, and fails fatally (models the panic) beyond that. -/
theorem discriminant_type_spec :
    ∀ n : Nat,
      (discriminant_type n = some Int.U8 ↔ n ≤ 256) ∧
      (discriminant_type n = some Int.U16 ↔ 256 < n ∧ n ≤ 65536) ∧
      (discriminant_type n = some Int.U32 ↔ 65536 < n ∧ n ≤ 4294967296) ∧
      (discriminant_type n = none ↔ 4294967296 < n) := by
  intro n
  match n with
  | 0 => simp [discriminant_type]
  | Nat.succ m =>
    simp only [discriminant_type]
    by_cases h1 : m ≤ 255 <;> by_cases h2 : m ≤ 65535 <;> by_cases h3 : m ≤ 4294967295 <;>
      simp [h1, h2, h3] <;> omega

/-- C3: `Flags::repr` maps 0 flags to a 32-bit representation of 0 words,
1–8 flags to 8-bit, 9–16 flags to 16-bit, and 17 or more flags to a
32-bit representation of exactly `ceil(n/32)` words; in particular 17
flags give 1 word and 33 flags give 2 words. -/
theorem flags_repr_spec :
    (∀ f : Flags,
      f.repr =
        (if f.flags.length = 0 then FlagsRepr.U32 0
         else if f.flags.length ≤ 8 then FlagsRepr.U8
         else if f.flags.length ≤ 16 then FlagsRepr.U16
         else FlagsRepr.U32 ((f.flags.length + 31) / 32))) ∧
    Flags.repr { flags := List.replicate 17 { name := "f", docs := { contents := none } } } =
      FlagsRepr.U32 1 ∧
    Flags.repr { flags := List.replicate 33 { name := "f", docs := { contents := none } } } =
      FlagsRepr.U32 2 ∧
    Flags.repr { flags := [] } = FlagsRepr.U32 0 := by
  refine ⟨?_, rfl, rfl, rfl⟩
  intro f
  rcases f with ⟨fl⟩
  cases h : fl.length with
  | zero => simp [Flags.repr, h]
  | succ m =>
    simp only [Flags.repr, h, align_to]
    rw [if_neg (Nat.succ_ne_zero m)]
    by_cases h8 : m + 1 ≤ 8
    · rw [if_pos h8, if_pos h8]
    · rw [if_neg h8, if_neg h8]
      by_cases h16 : m + 1 ≤ 16
      · rw [if_pos h16, if_pos h16]
      · rw [if_neg h16, if_neg h16]
        congr 1
        have h31 : m + 1 + 32 - 1 = m + 1 + 31 := by omega
        rw [h31, Nat.mul_div_cancel _ (by omega : 0 < 32)]

/-- C4 counterexample: the claim says `version_compat_track` returns a
pre-release version itself, but the code clears the build metadata first,
so a pre-release version carrying build metadata is not returned
unchanged. -/
theorem version_compat_track_claim_counterexample :
    PackageName.version_compat_track
        { major := 1, minor := 0, patch := 0, pre := "alpha", build := "build" } ≠
      { major := 1, minor := 0, patch := 0, pre := "alpha", build := "build" } := by
  decide

/-- C4 (amended): `version_compat_track` returns the version with build
metadata cleared when the pre-release component is non-empty; otherwise
`(major,0,0)` when `major ≠ 0`; otherwise `(0,minor,0)` when `minor ≠ 0`;
otherwise the full `(0,0,patch)`; versions `1.2.0` and `1.2.9` get equal
tracks while `0.1.0` and `0.2.0` do not. -/
theorem version_compat_track_amended :
    ∀ v : Version,
      (v.pre ≠ "" → PackageName.version_compat_track v = { v with build := "" }) ∧
      (v.pre = "" → v.major ≠ 0 →
        PackageName.version_compat_track v =
          { major := v.major, minor := 0, patch := 0, pre := "", build := "" }) ∧
      (v.pre = "" → v.major = 0 → v.minor ≠ 0 →
        PackageName.version_compat_track v =
          { major := 0, minor := v.minor, patch := 0, pre := "", build := "" }) ∧
      (v.pre = "" → v.major = 0 → v.minor = 0 →
        PackageName.version_compat_track v =
          { major := 0, minor := 0, patch := v.patch, pre := "", build := "" }) ∧
      PackageName.version_compat_track { major := 1, minor := 2, patch := 0, pre := "", build := "" } =
        PackageName.version_compat_track { major := 1, minor := 2, patch := 9, pre := "", build := "" } ∧
      PackageName.version_compat_track { major := 0, minor := 1, patch := 0, pre := "", build := "" } ≠
        PackageName.version_compat_track { major := 0, minor := 2, patch := 0, pre := "", build := "" } := by
  intro v
  rcases v with ⟨ma, mi, pa, pre, b⟩
  refine ⟨?_, ?_, ?_, ?_, by decide, by decide⟩
  · intro hp
    simp only [] at hp
    simp [PackageName.version_compat_track, hp]
  · intro hp hma
    simp only [] at hp hma
    simp [PackageName.version_compat_track, hp, hma]
  · intro hp hma hmi
    simp only [] at hp hma hmi
    simp [PackageName.version_compat_track, hp, hma, hmi]
  · intro hp hma hmi
    simp only [] at hp hma hmi
    simp [PackageName.version_compat_track, hp, hma, hmi]

/-- C4 witness: the amended claim evaluated at the pre-release version
`1.0.0-alpha+build`, whose track is `1.0.0-alpha`. -/
theorem version_compat_track_amended_witness :
    "alpha" ≠ "" ∧
    PackageName.version_compat_track
        { major := 1, minor := 0, patch := 0, pre := "alpha", build := "build" } =
      { major := 1, minor := 0, patch := 0, pre := "alpha", build := "" } :=
  ⟨by decide,
   (version_compat_track_amended
      { major := 1, minor := 0, patch := 0, pre := "alpha", build := "build" }).1
     (by decide)⟩

/-- C9: `version_compat_track` is idempotent and its result always has
empty build metadata. -/
theorem version_compat_track_idempotent :
    ∀ v : Version,
      PackageName.version_compat_track (PackageName.version_compat_track v) =
        PackageName.version_compat_track v ∧
      (PackageName.version_compat_track v).build = "" := by
  intro v
  rcases v with ⟨ma, mi, pa, pre, b⟩
  by_cases hp : pre = ""
  · by_cases hma : ma = 0
    · by_cases hmi : mi = 0
      · simp [PackageName.version_compat_track, hp, hma, hmi]
      · simp [PackageName.version_compat_track, hp, hma, hmi]
    · simp [PackageName.version_compat_track, hp, hma]
  · simp [PackageName.version_compat_track, hp]

/-- C7: `core_export_name` produces `cm32p2|{interface}|{name}` /
`{interface}#{name}` with an interface name, and `cm32p2||{name}` / the
bare function name without one, under Standard32/Legacy mangling
respectively. -/
theorem core_export_name_spec :
    ∀ (f : Function) (i : String),
      f.core_export_name (some i) Mangling.Standard32 = "cm32p2|" ++ i ++ "|" ++ f.name ∧
      f.core_export_name (some i) Mangling.Legacy = i ++ "#" ++ f.name ∧
      f.core_export_name none Mangling.Standard32 = "cm32p2||" ++ f.name ∧
      f.core_export_name none Mangling.Legacy = f.name := by
  intro f i
  exact ⟨rfl, rfl, rfl, rfl⟩

/-- C8: `is_async` holds exactly for the two async `Legacy` combinations,
`sync` maps those to `Legacy(Sync)` and fixes `Standard32` and
`Legacy(Sync)`, `sync` is idempotent, and `is_async` after `sync` is
always false. -/
theorem mangling_and_abi_sync_spec :
    ∀ x : ManglingAndAbi,
      (x.is_async = true ↔
        x = ManglingAndAbi.Legacy LiftLowerAbi.AsyncCallback ∨
        x = ManglingAndAbi.Legacy LiftLowerAbi.AsyncStackful) ∧
      (ManglingAndAbi.Legacy LiftLowerAbi.AsyncCallback).sync =
        ManglingAndAbi.Legacy LiftLowerAbi.Sync ∧
      (ManglingAndAbi.Legacy LiftLowerAbi.AsyncStackful).sync =
        ManglingAndAbi.Legacy LiftLowerAbi.Sync ∧
      ManglingAndAbi.Standard32.sync = ManglingAndAbi.Standard32 ∧
      (ManglingAndAbi.Legacy LiftLowerAbi.Sync).sync =
        ManglingAndAbi.Legacy LiftLowerAbi.Sync ∧
      x.sync.sync = x.sync ∧
      x.sync.is_async = false := by
  intro x
  cases x with
  | Standard32 => decide
  | Legacy abi => cases abi <;> decide

/-- The sort key of a version determines the version. -/
theorem version_key_inj : ∀ a b : Version, Version.key a = Version.key b → a = b := by
  intro a b h
  rcases a with ⟨ma, mi, pa, pre, bu⟩
  rcases b with ⟨ma', mi', pa', pre', bu'⟩
  simp only [Version.key, toLex_inj, Prod.mk.injEq] at h
  obtain ⟨h1, h2, h3, h4, h5⟩ := h
  have hpre : pre = pre' := by
    by_cases hp : pre = "" <;> by_cases hp' : pre' = "" <;>
      simp [preKey, hp, hp', toLex_inj, Prod.mk.injEq] at h4 <;> simp_all
  simp_all

/-- `Version.lt` is transitive. -/
theorem version_lt_trans : ∀ a b c : Version, Version.lt a b → Version.lt b c → Version.lt a c := by
  intro a b c h1 h2
  have h1' : Version.key a < Version.key b := h1
  have h2' : Version.key b < Version.key c := h2
  show Version.key a < Version.key c
  exact lt_trans h1' h2'

/-- `Version.lt` is asymmetric. -/
theorem version_lt_asymm : ∀ a b : Version, Version.lt a b → ¬ Version.lt b a := by
  intro a b h1 h2
  have h1' : Version.key a < Version.key b := h1
  have h2' : Version.key b < Version.key a := h2
  exact lt_asymm h1' h2'

/-- `Version.lt` is total (up to equality). -/
theorem version_lt_total : ∀ a b : Version, Version.lt a b ∨ a = b ∨ Version.lt b a := by
  intro a b
  rcases lt_trichotomy (Version.key a) (Version.key b) with h | h | h
  · exact Or.inl h
  · exact Or.inr (Or.inl (version_key_inj a b h))
  · exact Or.inr (Or.inr h)

/-- `optVersionLt` is transitive. -/
theorem optVersionLt_trans :
    ∀ a b c : Option Version, optVersionLt a b → optVersionLt b c → optVersionLt a c := by
  intro a b c h1 h2
  cases a <;> cases b <;> cases c <;> simp only [optVersionLt] at h1 h2 ⊢
  all_goals
    first
      | exact h1.elim
      | exact h2.elim
      | trivial
      | exact version_lt_trans _ _ _ h1 h2

/-- `optVersionLt` is asymmetric. -/
theorem optVersionLt_asymm :
    ∀ a b : Option Version, optVersionLt a b → ¬ optVersionLt b a := by
  intro a b h1
  cases a <;> cases b <;> simp only [optVersionLt] at h1 ⊢ <;>
    first
      | exact h1.elim
      | simp
      | exact version_lt_asymm _ _ h1

/-- `optVersionLt` is total (up to equality). -/
theorem optVersionLt_total :
    ∀ a b : Option Version, optVersionLt a b ∨ a = b ∨ optVersionLt b a := by
  intro a b
  match a, b with
  | none, none => exact Or.inr (Or.inl rfl)
  | none, some y => exact Or.inl True.intro
  | some x, none => exact Or.inr (Or.inr True.intro)
  | some x, some y =>
    rcases version_lt_total x y with h | h | h
    · exact Or.inl h
    · exact Or.inr (Or.inl (by rw [h]))
    · exact Or.inr (Or.inr h)

/-- Transitivity of the strict lexicographic combination of a strict order
on the first component with a strict order on the second. -/
theorem lexLt_trans {α β : Type} {S : α → α → Prop} {R : β → β → Prop}
    (hS : ∀ x y z, S x y → S y z → S x z)
    (hR : ∀ x y z, R x y → R y z → R x z) :
    ∀ (a a' a'' : α) (b b' b'' : β),
      (S a a' ∨ (a = a' ∧ R b b')) → (S a' a'' ∨ (a' = a'' ∧ R b' b'')) →
      (S a a'' ∨ (a = a'' ∧ R b b'')) := by
  rintro a a' a'' b b' b'' (h1 | ⟨rfl, h1⟩) (h2 | ⟨rfl, h2⟩)
  · exact Or.inl (hS _ _ _ h1 h2)
  · exact Or.inl h1
  · exact Or.inl h2
  · exact Or.inr ⟨rfl, hR _ _ _ h1 h2⟩

/-- Asymmetry of the strict lexicographic combination. -/
theorem lexLt_asymm {α β : Type} {S : α → α → Prop} {R : β → β → Prop}
    (hS : ∀ x y, S x y → ¬ S y x)
    (hR : ∀ x y, R x y → ¬ R y x) :
    ∀ (a a' : α) (b b' : β),
      (S a a' ∨ (a = a' ∧ R b b')) → ¬ (S a' a ∨ (a' = a ∧ R b' b)) := by
  rintro a a' b b' (h1 | ⟨rfl, h1⟩) (h2 | ⟨h2eq, h2⟩)
  · exact hS _ _ h1 h2
  · subst h2eq
    exact hS _ _ h1 h1
  · exact hS _ _ h2 h2
  · exact hR _ _ h1 h2

/-- Totality (up to componentwise equality) of the strict lexicographic
combination. -/
theorem lexLt_total {α β : Type} {S : α → α → Prop} {R : β → β → Prop}
    (hS : ∀ x y, S x y ∨ x = y ∨ S y x)
    (hR : ∀ x y, R x y ∨ x = y ∨ R y x) :
    ∀ (a a' : α) (b b' : β),
      (S a a' ∨ (a = a' ∧ R b b')) ∨ (a = a' ∧ b = b') ∨ (S a' a ∨ (a' = a ∧ R b' b)) := by
  intro a a' b b'
  rcases hS a a' with h | rfl | h
  · exact Or.inl (Or.inl h)
  · rcases hR b b' with h | rfl | h
    · exact Or.inl (Or.inr ⟨rfl, h⟩)
    · exact Or.inr (Or.inl ⟨rfl, rfl⟩)
    · exact Or.inr (Or.inr (Or.inr ⟨rfl, h⟩))
  · exact Or.inr (Or.inr (Or.inl h))

/-- `Stability.lt` is transitive. -/
theorem stability_lt_trans :
    ∀ a b c : Stability, Stability.lt a b → Stability.lt b c → Stability.lt a c := by
  intro a b c h1 h2
  cases a <;> cases b <;> cases c <;> simp only [Stability.lt] at h1 h2 ⊢ <;>
    first
      | exact h1.elim
      | exact h2.elim
      | trivial
      | exact @lexLt_trans String (Option Version) (fun x y => x < y) optVersionLt
          (fun x y z hxy hyz => lt_trans hxy hyz) optVersionLt_trans _ _ _ _ _ _ h1 h2
      | exact @lexLt_trans Version (Option Version) Version.lt optVersionLt
          version_lt_trans optVersionLt_trans _ _ _ _ _ _ h1 h2

/-- `Stability.lt` is asymmetric. -/
theorem stability_lt_asymm :
    ∀ a b : Stability, Stability.lt a b → ¬ Stability.lt b a := by
  intro a b h1
  cases a <;> cases b <;> simp only [Stability.lt] at h1 ⊢ <;>
    first
      | exact h1.elim
      | exact fun h => h
      | exact @lexLt_asymm String (Option Version) (fun x y => x < y) optVersionLt
          (fun x y hxy => lt_asymm hxy) optVersionLt_asymm _ _ _ _ h1
      | exact @lexLt_asymm Version (Option Version) Version.lt optVersionLt
          version_lt_asymm optVersionLt_asymm _ _ _ _ h1

/-- `Stability.lt` is total (up to equality). -/
theorem stability_lt_total :
    ∀ a b : Stability, Stability.lt a b ∨ a = b ∨ Stability.lt b a := by
  intro a b
  cases a with
  | Unknown =>
    cases b with
    | Unknown => exact Or.inr (Or.inl rfl)
    | Unstable f d => exact Or.inl True.intro
    | Stable s d => exact Or.inl True.intro
  | Unstable f d =>
    cases b with
    | Unknown => exact Or.inr (Or.inr True.intro)
    | Unstable f' d' =>
      rcases lexLt_total (fun x y => lt_trichotomy x y) optVersionLt_total f f' d d' with
        h | ⟨h1, h2⟩ | h
      · exact Or.inl h
      · exact Or.inr (Or.inl (by rw [h1, h2]))
      · exact Or.inr (Or.inr h)
    | Stable s d' => exact Or.inl True.intro
  | Stable s d =>
    cases b with
    | Unknown => exact Or.inr (Or.inr True.intro)
    | Unstable f' d' => exact Or.inr (Or.inr True.intro)
    | Stable s' d' =>
      rcases lexLt_total version_lt_total optVersionLt_total s s' d d' with
        h | ⟨h1, h2⟩ | h
      · exact Or.inl h
      · exact Or.inr (Or.inl (by rw [h1, h2]))
      · exact Or.inr (Or.inr h)

/-- C6: the strict order on `Stability` is total (trichotomous, asymmetric
and transitive), places `Unknown` below every `Unstable` and every
`Unstable` below every `Stable` regardless of payloads, and compares two
values of the same tag lexicographically by their payload fields
(`feature` then `deprecated`; `since` then `deprecated`). -/
theorem stability_order_spec :
    (∀ a b : Stability, Stability.lt a b ∨ a = b ∨ Stability.lt b a) ∧
    (∀ a b : Stability, Stability.lt a b → ¬ Stability.lt b a) ∧
    (∀ a b c : Stability, Stability.lt a b → Stability.lt b c → Stability.lt a c) ∧
    (∀ (f : String) (d : Option Version),
      Stability.lt Stability.Unknown (Stability.Unstable f d)) ∧
    (∀ (f : String) (d : Option Version) (s : Version) (d' : Option Version),
      Stability.lt (Stability.Unstable f d) (Stability.Stable s d')) ∧
    (∀ (s : Version) (d : Option Version),
      Stability.lt Stability.Unknown (Stability.Stable s d)) ∧
    (∀ (f f' : String) (d d' : Option Version),
      Stability.lt (Stability.Unstable f d) (Stability.Unstable f' d') ↔
        (f < f' ∨ (f = f' ∧ optVersionLt d d'))) ∧
    (∀ (s s' : Version) (d d' : Option Version),
      Stability.lt (Stability.Stable s d) (Stability.Stable s' d') ↔
        (Version.lt s s' ∨ (s = s' ∧ optVersionLt d d'))) := by
  refine ⟨stability_lt_total, stability_lt_asymm, stability_lt_trans, ?_, ?_, ?_, ?_, ?_⟩
  · intro f d
    exact True.intro
  · intro f d s d'
    exact True.intro
  · intro s d
    exact True.intro
  · intro f f' d d'
    exact Iff.rfl
  · intro s s' d d'
    exact Iff.rfl

/-- Folding the short-circuiting step over a list from an already-failed
state stays failed. -/
theorem stepTypes_foldl_none (step : Ty → List TypeId → Option (List TypeId)) :
    ∀ ts : List Ty,
      List.foldl
        (fun o t =>
          match o with
          | none => none
          | some results => step t results)
        none ts = none := by
  intro ts
  induction ts with
  | nil => rfl
  | cons t ts ih => exact ih

/-- If every step extends its accumulator by a suffix of ids satisfying
`P`, so does the whole fold. -/
theorem stepTypes_sound {P : TypeId → Prop}
    (step : Ty → List TypeId → Option (List TypeId))
    (hstep : ∀ t acc res, step t acc = some res →
      ∃ extra, res = acc ++ extra ∧ ∀ i ∈ extra, P i) :
    ∀ (ts : List Ty) (acc res : List TypeId),
      stepTypes step ts acc = some res →
      ∃ extra, res = acc ++ extra ∧ ∀ i ∈ extra, P i := by
  intro ts
  induction ts with
  | nil =>
    intro acc res h
    simp [stepTypes] at h
    subst h
    exact ⟨[], by simp, by simp⟩
  | cons t ts ih =>
    intro acc res h
    simp only [stepTypes, List.foldl] at h
    cases hs : step t acc with
    | none =>
      rw [hs] at h
      rw [stepTypes_foldl_none] at h
      exact absurd h (by simp)
    | some mid =>
      rw [hs] at h
      have h' : stepTypes step ts mid = some res := h
      obtain ⟨e1, rfl, hP1⟩ := hstep t acc mid hs
      obtain ⟨e2, rfl, hP2⟩ := ih (acc ++ e1) res h'
      refine ⟨e1 ++ e2, by simp, ?_⟩
      intro i hi
      rcases List.mem_append.mp hi with hi | hi
      · exact hP1 i hi
      · exact hP2 i hi

/-- Whenever `findFS` succeeds it returns its accumulator extended by a
suffix of ids all of which point at future or stream type definitions. -/
theorem findFS_sound (resolve : Resolve) :
    ∀ (fuel : Nat) (ty : Ty) (acc res : List TypeId),
      findFS resolve fuel ty acc = some res →
      ∃ extra, res = acc ++ extra ∧ ∀ i ∈ extra,
        ∃ td, resolve.types[i]? = some td ∧ isFutureOrStream td.kind := by
  intro fuel
  induction fuel with
  | zero =>
    intro ty acc res h
    exact absurd h (by simp [findFS])
  | succ fuel ih =>
    intro ty acc res h
    have hprim : some acc = some res →
        ∃ extra, res = acc ++ extra ∧ ∀ i ∈ extra,
          ∃ td, resolve.types[i]? = some td ∧ isFutureOrStream td.kind := by
      intro hh
      simp only [Option.some.injEq] at hh
      subst hh
      exact ⟨[], by simp, by simp⟩
    cases ty with
    | Bool => exact hprim h
    | U8 => exact hprim h
    | U16 => exact hprim h
    | U32 => exact hprim h
    | U64 => exact hprim h
    | S8 => exact hprim h
    | S16 => exact hprim h
    | S32 => exact hprim h
    | S64 => exact hprim h
    | F32 => exact hprim h
    | F64 => exact hprim h
    | Char => exact hprim h
    | String => exact hprim h
    | ErrorContext => exact hprim h
    | Id id =>
    simp only [findFS] at h
    rcases htd : resolve.types[id]? with _ | td
    · rw [htd] at h
      exact absurd h (by simp)
    · rw [htd] at h
      rcases td with ⟨nm, kind, ow, dc, st⟩
      cases kind with
      | Resource => exact hprim h
      | Handle hd => exact hprim h
      | Flags fs => exact hprim h
      | Enum e => exact hprim h
      | Record r => exact stepTypes_sound _ (fun t a r hh => ih t a r hh) _ _ _ h
      | Tuple t => exact stepTypes_sound _ (fun t a r hh => ih t a r hh) _ _ _ h
      | Variant v => exact stepTypes_sound _ (fun t a r hh => ih t a r hh) _ _ _ h
      | Result r => exact stepTypes_sound _ (fun t a r hh => ih t a r hh) _ _ _ h
      | Option t => exact ih t acc res h
      | List t => exact ih t acc res h
      | FixedSizeList t n => exact ih t acc res h
      | «Type» t => exact ih t acc res h
      | Future t =>
        have h2 : (match stepTypes (fun t r => findFS resolve fuel t r) t.toList acc with
            | none => none
            | some results => some (results ++ [id])) = some res := h
        rcases hm : stepTypes (fun t r => findFS resolve fuel t r) t.toList acc with _ | mid
        · rw [hm] at h2
          exact absurd h2 (by simp)
        · rw [hm] at h2
          simp only [Option.some.injEq] at h2
          obtain ⟨e1, rfl, hP⟩ := stepTypes_sound _ (fun t a r hh => ih t a r hh) _ _ _ hm
          refine ⟨e1 ++ [id], by rw [← h2]; simp, ?_⟩
          intro i hi
          rcases List.mem_append.mp hi with hi | hi
          · exact hP i hi
          · have : i = id := by simpa using hi
            subst this
            exact ⟨⟨nm, TypeDefKind.Future t, ow, dc, st⟩, htd, Or.inl ⟨t, rfl⟩⟩
      | Stream t =>
        have h2 : (match stepTypes (fun t r => findFS resolve fuel t r) t.toList acc with
            | none => none
            | some results => some (results ++ [id])) = some res := h
        rcases hm : stepTypes (fun t r => findFS resolve fuel t r) t.toList acc with _ | mid
        · rw [hm] at h2
          exact absurd h2 (by simp)
        · rw [hm] at h2
          simp only [Option.some.injEq] at h2
          obtain ⟨e1, rfl, hP⟩ := stepTypes_sound _ (fun t a r hh => ih t a r hh) _ _ _ hm
          refine ⟨e1 ++ [id], by rw [← h2]; simp, ?_⟩
          intro i hi
          rcases List.mem_append.mp hi with hi | hi
          · exact hP i hi
          · have : i = id := by simpa using hi
            subst this
            exact ⟨⟨nm, TypeDefKind.Stream t, ow, dc, st⟩, htd, Or.inr ⟨t, rfl⟩⟩
      | Unknown =>
        exact absurd h (by simp)

/-- The accumulator-threading fold of the source embedding computes the
in-order concatenation of per-type collections, appended to the
accumulator, whenever the per-type step does. -/
theorem stepTypes_eq_collectEach (step : Ty → List TypeId → Option (List TypeId))
    (g : Ty → Option (List TypeId))
    (hsg : ∀ t acc, step t acc = (g t).map (fun e => acc ++ e)) :
    ∀ (ts : List Ty) (acc : List TypeId),
      stepTypes step ts acc = (collectEach g ts).map (fun e => acc ++ e) := by
  intro ts
  induction ts with
  | nil =>
    intro acc
    simp [stepTypes, collectEach]
  | cons t ts ih =>
    intro acc
    have key : stepTypes step (t :: ts) acc =
        (match (g t).map (fun e => acc ++ e) with
         | none => none
         | some mid => stepTypes step ts mid) := by
      simp only [stepTypes, List.foldl]
      rw [hsg]
      cases (g t).map (fun e => acc ++ e) with
      | none => exact stepTypes_foldl_none step ts
      | some mid => rfl
    rw [key]
    cases hg : g t with
    | none => simp [collectEach, hg]
    | some a =>
      simp only [hg, Option.map_some']
      rw [ih (acc ++ a)]
      simp only [collectEach, hg]
      cases hb : collectEach g ts with
      | none => simp
      | some b => simp [List.append_assoc]

/-- The source embedding `findFS` returns exactly the specification-level
collection of future/stream ids, appended to its accumulator, for every
arena, fuel, type and accumulator (including agreement on failure). -/
theorem findFS_eq_spec (resolve : Resolve) :
    ∀ (fuel : Nat) (ty : Ty) (acc : List TypeId),
      findFS resolve fuel ty acc =
        (specFuturesAndStreams resolve fuel ty).map (fun e => acc ++ e) := by
  intro fuel
  induction fuel with
  | zero =>
    intro ty acc
    simp [findFS, specFuturesAndStreams]
  | succ fuel ih =>
    intro ty acc
    cases ty with
    | Bool => simp [findFS, specFuturesAndStreams]
    | U8 => simp [findFS, specFuturesAndStreams]
    | U16 => simp [findFS, specFuturesAndStreams]
    | U32 => simp [findFS, specFuturesAndStreams]
    | U64 => simp [findFS, specFuturesAndStreams]
    | S8 => simp [findFS, specFuturesAndStreams]
    | S16 => simp [findFS, specFuturesAndStreams]
    | S32 => simp [findFS, specFuturesAndStreams]
    | S64 => simp [findFS, specFuturesAndStreams]
    | F32 => simp [findFS, specFuturesAndStreams]
    | F64 => simp [findFS, specFuturesAndStreams]
    | Char => simp [findFS, specFuturesAndStreams]
    | String => simp [findFS, specFuturesAndStreams]
    | ErrorContext => simp [findFS, specFuturesAndStreams]
    | Id id =>
      simp only [findFS, specFuturesAndStreams]
      cases htd : resolve.types[id]? with
      | none => simp
      | some td =>
        rcases td with ⟨nm, kind, ow, dc, st⟩
        cases kind with
        | Resource => simp
        | Handle hd => simp
        | Flags fs => simp
        | Enum e => simp
        | Record r =>
          exact stepTypes_eq_collectEach _ _ (fun t a => ih t a) _ acc
        | Tuple t =>
          exact stepTypes_eq_collectEach _ _ (fun t a => ih t a) _ acc
        | Variant v =>
          exact stepTypes_eq_collectEach _ _ (fun t a => ih t a) _ acc
        | Result r =>
          exact stepTypes_eq_collectEach _ _ (fun t a => ih t a) _ acc
        | Option t => exact ih t acc
        | List t => exact ih t acc
        | FixedSizeList t n => exact ih t acc
        | «Type» t => exact ih t acc
        | Future t =>
          have hst := stepTypes_eq_collectEach (fun t r => findFS resolve fuel t r)
            (fun t => specFuturesAndStreams resolve fuel t) (fun t a => ih t a) t.toList acc
          show (match stepTypes (fun t r => findFS resolve fuel t r) t.toList acc with
              | none => none
              | some results => some (results ++ [id])) =
            Option.map (fun e => acc ++ e)
              (Option.map (fun e => e ++ [id])
                (collectEach (fun t => specFuturesAndStreams resolve fuel t) t.toList))
          rw [hst]
          cases hc : collectEach (fun t => specFuturesAndStreams resolve fuel t) t.toList with
          | none => simp
          | some e => simp [List.append_assoc]
        | Stream t =>
          have hst := stepTypes_eq_collectEach (fun t r => findFS resolve fuel t r)
            (fun t => specFuturesAndStreams resolve fuel t) (fun t a => ih t a) t.toList acc
          show (match stepTypes (fun t r => findFS resolve fuel t r) t.toList acc with
              | none => none
              | some results => some (results ++ [id])) =
            Option.map (fun e => acc ++ e)
              (Option.map (fun e => e ++ [id])
                (collectEach (fun t => specFuturesAndStreams resolve fuel t) t.toList))
          rw [hst]
          cases hc : collectEach (fun t => specFuturesAndStreams resolve fuel t) t.toList with
          | none => simp
          | some e => simp [List.append_assoc]
        | Unknown => simp

/-- C5: on the spec's example (`foo: func(p1: future<future<u32>>, p2: u32)
-> stream<u8>` over the arena `[future<u32>, future<future<u32>>,
stream<u8>]`) the traversal returns exactly `[0, 1, 2]` — the inner future
before the future containing it, parameters before the result; for every
arena, fuel and function the traversal returns exactly the
specification-level depth-first collection (each parameter type in order,
then the result type, a nested future/stream before its container); and
every id it returns points at a future or stream type definition of the
arena. -/
theorem find_futures_and_streams_spec :
    exampleFunction.find_futures_and_streams exampleResolve 10 = some [0, 1, 2] ∧
    (∀ (resolve : Resolve) (fuel : Nat) (f : Function),
      f.find_futures_and_streams resolve fuel =
        specSignatureFuturesAndStreams resolve fuel f) ∧
    (∀ (resolve : Resolve) (fuel : Nat) (f : Function) (res : List TypeId),
      f.find_futures_and_streams resolve fuel = some res →
      ∀ i ∈ res, ∃ td, resolve.types[i]? = some td ∧ isFutureOrStream td.kind) := by
  refine ⟨rfl, ?_, ?_⟩
  · intro resolve fuel f
    simp only [Function.find_futures_and_streams, specSignatureFuturesAndStreams]
    rw [stepTypes_eq_collectEach _ _ (fun t a => findFS_eq_spec resolve fuel t a)
      (f.params.map Prod.snd) []]
    cases hc : collectEach (fun t => specFuturesAndStreams resolve fuel t)
        (f.params.map Prod.snd) with
    | none => simp
    | some ps =>
      simp only [Option.map_some', List.nil_append]
      cases hres : f.result with
      | none => simp
      | some ty =>
        have hst := findFS_eq_spec resolve fuel ty ps
        cases hr : specFuturesAndStreams resolve fuel ty with
        | none => simp [hst, hr]
        | some rs => simp [hst, hr]
  · intro resolve fuel f res h i hi
    simp only [Function.find_futures_and_streams] at h
    rcases hm : stepTypes (fun t r => findFS resolve fuel t r) (f.params.map Prod.snd) []
      with _ | mid
    · rw [hm] at h
      exact absurd h (by simp)
    · rw [hm] at h
      obtain ⟨e1, he1, hP1⟩ :=
        stepTypes_sound _ (fun t a r hh => findFS_sound resolve fuel t a r hh) _ _ _ hm
      cases hres : f.result with
      | none =>
        rw [hres] at h
        simp only [Option.some.injEq] at h
        subst h
        rw [he1] at hi
        exact hP1 i (by simpa using hi)
      | some ty =>
        rw [hres] at h
        obtain ⟨e2, he2, hP2⟩ := findFS_sound resolve fuel ty mid res h
        subst he2
        rcases List.mem_append.mp hi with hi | hi
        · rw [he1] at hi
          exact hP1 i (by simpa using hi)
        · exact hP2 i hi

/-- C5 witness: the general part applied to the example traversal, at the
returned id 1, which indeed names `future<future<u32>>`. -/
theorem find_futures_and_streams_spec_witness :
    ∃ td, exampleResolve.types[1]? = some td ∧ isFutureOrStream td.kind :=
  find_futures_and_streams_spec.2.2 exampleResolve 10 exampleFunction [0, 1, 2] rfl 1
    (by simp)

/-- C6 witness: the transitivity and asymmetry parts applied to the
concrete chain `Unknown < Unstable{feature:"x"} < Stable{since:1.0.0}`. -/
theorem stability_order_spec_witness :
    Stability.lt Stability.Unknown
      (Stability.Stable { major := 1, minor := 0, patch := 0, pre := "", build := "" } none) ∧
    ¬ Stability.lt (Stability.Unstable "x" none) Stability.Unknown :=
  ⟨stability_order_spec.2.2.1 Stability.Unknown (Stability.Unstable "x" none)
      (Stability.Stable { major := 1, minor := 0, patch := 0, pre := "", build := "" } none)
      True.intro True.intro,
   stability_order_spec.2.1 Stability.Unknown (Stability.Unstable "x" none) True.intro⟩

end WitParser

namespace WitEncoder

/-- C10: a constructor `ResourceFunc` has no result slot (`result` is
`None`) and `set_result`/`set_name` panic on it; a method or static
`ResourceFunc` has a result slot (`result` is `Some`) and `set_result`
succeeds, storing the new result while leaving the name, parameters and
docs unchanged. -/
theorem resource_func_spec :
    ∀ (f : ResourceFunc) (nm : Ident) (newr : Option Ty),
      (f.kind = ResourceFuncKind.Constructor →
        f.result = none ∧ f.set_result newr = none ∧ f.set_name nm = none) ∧
      (f.kind ≠ ResourceFuncKind.Constructor →
        (∃ r, f.result = some r) ∧
        ∃ g, f.set_result newr = some g ∧ g.result = some newr ∧
          g.kind.name? = f.kind.name? ∧ g.params = f.params ∧ g.docs = f.docs) := by
  intro f nm newr
  rcases f with ⟨k, p, d⟩
  cases k with
  | Method n a r =>
    refine ⟨fun h => absurd h (by simp), fun _ => ?_⟩
    exact ⟨⟨r, rfl⟩, ⟨{ kind := ResourceFuncKind.Method n a newr, params := p, docs := d },
      rfl, rfl, rfl, rfl, rfl⟩⟩
  | Static n a r =>
    refine ⟨fun h => absurd h (by simp), fun _ => ?_⟩
    exact ⟨⟨r, rfl⟩, ⟨{ kind := ResourceFuncKind.Static n a newr, params := p, docs := d },
      rfl, rfl, rfl, rfl, rfl⟩⟩
  | Constructor =>
    exact ⟨fun _ => ⟨rfl, rfl, rfl⟩, fun h => absurd rfl h⟩

/-- C10 witness: both branches evaluated, on `constructor()` and on a
concrete method. -/
theorem resource_func_spec_witness :
    ((ResourceFunc.constructor).result = none ∧
      (ResourceFunc.constructor).set_result none = none ∧
      (ResourceFunc.constructor).set_name { str := "x" } = none) ∧
    ((∃ r, (ResourceFunc.method { str := "m" } false).result = some r) ∧
      ∃ g, (ResourceFunc.method { str := "m" } false).set_result (some { tag := 0 }) = some g ∧
        g.result = some (some { tag := 0 }) ∧
        g.kind.name? = (ResourceFunc.method { str := "m" } false).kind.name? ∧
        g.params = (ResourceFunc.method { str := "m" } false).params ∧
        g.docs = (ResourceFunc.method { str := "m" } false).docs) :=
  ⟨(resource_func_spec ResourceFunc.constructor { str := "x" } none).1 rfl,
   (resource_func_spec (ResourceFunc.method { str := "m" } false) { str := "x" }
      (some { tag := 0 })).2 (by decide)⟩

end WitEncoder
